import Mathlib

/-!
Shallow embedding of the Audit Analysis Engine of `main.py`:
failure-mask construction, per-file statistics, SLA latency metrics,
order-identifier extraction, pair building and reconciliation.

Tables are modelled as a column-name list plus rows of optional string
cells (a pandas `DataFrame` whose cells are either missing, `NaN`, or a
string value).  `datetime.utcnow()` is modelled as an explicit `now`
parameter measured in whole days, matching the day-resolution arithmetic
the code performs on it.  Date parsing (`pd.to_datetime` with
`errors="coerce"`) is modelled on ISO `YYYY-MM-DD` strings; any other
string is unparsable and coerces to a missing date.
-/

namespace AuditBot

/-- One cell of a table: `none` models a missing value (pandas `NaN`). -/
abbrev Cell := Option String

/-- One row of a table, aligned positionally with the table's columns. -/
abbrev Row := List Cell

/-- A tabular input (pandas `DataFrame`): named columns plus rows. -/
structure Table where
  cols : List String
  rows : List Row
  deriving Repr, DecidableEq

/-- `column in df.columns`. -/
def Table.hasCol (t : Table) (c : String) : Bool :=
  t.cols.contains c

/-- Cell lookup by column name: `row[c]`, `none` when the column is absent
or the row is too short. -/
def getCell (t : Table) (r : Row) (c : String) : Cell :=
  match t.cols.findIdx? (fun c2 => c2 == c) with
  | none => none
  | some i => (r.get? i).join

/-- `fillna("").astype(str)` on a single cell. -/
def cellStr (cell : Cell) : String :=
  cell.getD ""

/-- `isPrefixCh n h` is true iff the char list `n` is a prefix of `h`. -/
def isPrefixCh : List Char → List Char → Bool
  | [], _ => true
  | _ :: _, [] => false
  | a :: as, b :: bs => a == b && isPrefixCh as bs

/-- Index of the first occurrence of `needle` inside `hay`
(Python `str.find`, as an `Option`). -/
def findSubstrIdx (needle : List Char) : List Char → Option Nat
  | [] => if isPrefixCh needle [] then some 0 else none
  | b :: bs =>
    if isPrefixCh needle (b :: bs) then some 0
    else (findSubstrIdx needle bs).map (fun i => i + 1)

/-- `needle in hay` for char lists. -/
def containsSub (needle hay : String) : Bool :=
  (findSubstrIdx needle.toList hay.toList).isSome

/-- `str.lower()`, character by character. -/
def lowerStr (s : String) : String :=
  String.mk (s.toList.map Char.toLower)

/-- `str.strip()`: drop leading and trailing whitespace. -/
def trimStr (s : String) : String :=
  String.mk (((s.toList.dropWhile Char.isWhitespace).reverse.dropWhile
    Char.isWhitespace).reverse)

/-- Lexicographic (code-point) comparison of char lists: Python string
`<=`. -/
def lexLeCh : List Char → List Char → Bool
  | [], _ => true
  | _ :: _, [] => false
  | a :: as, b :: bs => if a = b then lexLeCh as bs else decide (a < b)

/-- Python string ordering (`sorted` on identifier strings / keywords). -/
def strLe (a b : String) : Prop :=
  lexLeCh a.toList b.toList = true

instance : DecidableRel strLe := fun _ _ => instDecidableEqBool _ _

instance : IsTotal String strLe := by
  constructor
  intro a b
  show lexLeCh a.toList b.toList = true ∨ lexLeCh b.toList a.toList = true
  generalize a.toList = as
  generalize b.toList = bs
  induction as generalizing bs with
  | nil => left; rfl
  | cons a as ih =>
    cases bs with
    | nil => right; rfl
    | cons b bs =>
      unfold lexLeCh
      by_cases hab : a = b
      · subst hab
        simpa using ih bs
      · rcases lt_or_gt_of_ne hab with h | h
        · left; simp [hab, h]
        · right; simp [Ne.symm hab, h]

instance : IsTrans String strLe := by
  constructor
  intro a b c h1 h2
  show lexLeCh a.toList c.toList = true
  revert h1 h2
  show lexLeCh a.toList b.toList = true → lexLeCh b.toList c.toList = true → _
  generalize a.toList = as
  generalize b.toList = bs
  generalize c.toList = cs
  intro h1 h2
  induction as generalizing bs cs with
  | nil => rfl
  | cons a as ih =>
    cases bs with
    | nil => simp [lexLeCh] at h1
    | cons b bs =>
      cases cs with
      | nil => simp [lexLeCh] at h2
      | cons c cs =>
        unfold lexLeCh at h1 h2 ⊢
        by_cases hab : a = b
        · subst hab
          by_cases hbc : a = c
          · subst hbc
            simp only [if_pos rfl] at h1 h2 ⊢
            exact ih bs cs h1 h2
          · simp only [if_neg hbc] at h2 ⊢
            simpa using h2
        · simp only [if_neg hab] at h1
          by_cases hbc : b = c
          · subst hbc
            simp only [if_neg hab]
            exact h1
          · simp only [if_neg hbc] at h2
            have hac : a < c := lt_trans (by simpa using h1) (by simpa using h2)
            simp [ne_of_lt hac, hac]

instance : IsAntisymm String strLe := by
  constructor
  intro a b h1 h2
  show a = b
  apply String.ext
  revert h1 h2
  show lexLeCh a.toList b.toList = true → lexLeCh b.toList a.toList = true → a.data = b.data
  have hdata : ∀ s : String, s.toList = s.data := fun _ => rfl
  rw [hdata a, hdata b]
  generalize a.data = as
  generalize b.data = bs
  intro h1 h2
  induction as generalizing bs with
  | nil =>
    cases bs with
    | nil => rfl
    | cons b bs => simp [lexLeCh] at h2
  | cons a as ih =>
    cases bs with
    | nil => simp [lexLeCh] at h1
    | cons b bs =>
      unfold lexLeCh at h1 h2
      by_cases hab : a = b
      · subst hab
        simp only [if_pos rfl] at h1 h2
        rw [ih bs h1 h2]
      · simp only [if_neg hab, if_neg (Ne.symm hab)] at h1 h2
        exact absurd (by simpa using h2) (not_lt_of_gt (by simpa using h1))

/-- Ascending sort of the underlying list of a multiset of strings
(well defined because sorting is permutation-invariant). -/
def sortMultiset (s : Multiset String) : List String :=
  Quot.liftOn s (fun l => List.insertionSort strLe l)
    (fun l1 l2 h =>
      List.eq_of_perm_of_sorted
        ((List.perm_insertionSort _ l1).trans
          (h.trans (List.perm_insertionSort _ l2).symm))
        (List.sorted_insertionSort _ l1) (List.sorted_insertionSort _ l2))

/-- `compile_failure_pattern`: the compiled regex is an alternation of the
escaped keywords taken from `tuple(sorted(set(keywords)))`; we keep the
sorted deduplicated keyword list itself as the pattern. -/
def compile_failure_pattern (keywords : List String) : List String :=
  sortMultiset keywords.toFinset.val

/-- Semantics of matching the compiled pattern against a string with
`re.IGNORECASE` and `re.search`/`Series.str.contains`: some keyword occurs
case-insensitively as a substring. -/
def patternMatches (pat : List String) (s : String) : Bool :=
  pat.any (fun k => containsSub (lowerStr k) (lowerStr s))

/-- The status columns present in this table's schema, in configured order
(`inspected_columns` of `build_failure_mask`). -/
def inspectedColumns (t : Table) (statusColumns : List String) : List String :=
  statusColumns.filter (fun c => t.hasCol c)

/-- `" ".join` of every cell of the row (missing values as empty string):
the whole-row text the mask additionally matches against. -/
def rowText (t : Table) (r : Row) : String :=
  String.intercalate " " (t.cols.map (fun c => cellStr (getCell t r c)))

/-- Whether one row is flagged by the failure mask: any inspected status
column matches, or the whole-row text matches. -/
def rowFails (t : Table) (pat : List String) (statusColumns : List String) (r : Row) : Bool :=
  (inspectedColumns t statusColumns).any (fun c => patternMatches pat (cellStr (getCell t r c)))
    || patternMatches pat (rowText t r)

/-- `build_failure_mask`: returns the per-row mask, the inspected status
columns, and the compiled pattern.  An empty table yields an empty mask
and empty inspected list (the pattern is still compiled). -/
def build_failure_mask (t : Table) (keywords statusColumns : List String) :
    List Bool × List String × List String :=
  let pat := compile_failure_pattern keywords
  if t.rows.isEmpty then ([], [], pat)
  else (t.rows.map (rowFails t pat statusColumns), inspectedColumns t statusColumns, pat)

/-- `IDENTIFIER_COLUMNS`. -/
def IDENTIFIER_COLUMNS : List String :=
  ["OrderId", "Order Number", "Document Id"]

/-- All cells of one named column, top to bottom. -/
def columnCells (t : Table) (c : String) : List Cell :=
  t.rows.map (fun r => getCell t r c)

/-- The loop body of `extract_order_identifiers`: first candidate column
present in the schema wins; its non-missing values are stringified and
trimmed and returned as a set. -/
def extractIdentifiersFrom (t : Table) : List String → Finset String
  | [] => ∅
  | c :: rest =>
    if t.hasCol c then
      (((columnCells t c).filterMap id).map trimStr).toFinset
    else extractIdentifiersFrom t rest

/-- `extract_order_identifiers`. -/
def extract_order_identifiers (t : Table) : Finset String :=
  extractIdentifiersFrom t IDENTIFIER_COLUMNS

/-- Cumulative days before the start of month `m` in a non-leap year. -/
def monthOffset (m : Nat) : Nat :=
  [0, 0, 31, 59, 90, 120, 151, 181, 212, 243, 273, 304, 334].getD m 0

/-- Gregorian leap-year test. -/
def isLeap (y : Nat) : Bool :=
  (y % 4 == 0 && y % 100 != 0) || y % 400 == 0

/-- Absolute day number of a Gregorian date (days since the proleptic
year 0), so that differences are exact calendar-day differences. -/
def dayNumber (y m d : Nat) : Int :=
  (365 * y + y / 4 - y / 100 + y / 400
    + monthOffset m + (if isLeap y && m > 2 then 1 else 0) + d : Int)

/-- Split a char list at every occurrence of a separator character
(Python `str.split(sep)` semantics). -/
def splitOnCharAux (sep : Char) : List Char → List Char → List (List Char)
  | [], acc => [acc.reverse]
  | x :: xs, acc =>
    if x == sep then acc.reverse :: splitOnCharAux sep xs []
    else splitOnCharAux sep xs (x :: acc)

/-- Split a string at every occurrence of a separator character. -/
def splitOnChar (sep : Char) (s : String) : List String :=
  (splitOnCharAux sep s.toList []).map String.mk

/-- Decimal value of an all-digit, non-empty char list. -/
def digitsToNat (cs : List Char) : Option Nat :=
  if cs.isEmpty then none
  else if cs.all Char.isDigit then
    some (cs.foldl (fun n c => 10 * n + (c.toNat - Char.toNat '0')) 0)
  else none

/-- Model of `pd.to_datetime(_, errors="coerce")` on a single cell value:
parses ISO `YYYY-MM-DD` dates to an absolute day number; every other
string coerces to a missing date (`NaT`). -/
def parseDate (s : String) : Option Int :=
  match (splitOnChar '-' (trimStr s)).map (fun p => digitsToNat p.toList) with
  | [some y, some m, some d] =>
    if 1 ≤ m && m ≤ 12 && 1 ≤ d && d ≤ 31 then some (dayNumber y m d) else none
  | _ => none

/-- `SIGNATURE_COLUMN`. -/
def SIGNATURE_COLUMN : String := "Signed By Physician Date"

/-- `SENT_TO_PHYSICIAN_COLUMN`. -/
def SENT_TO_PHYSICIAN_COLUMN : String := "Sent To Physician Date"

/-- `PENDING_OVERDUE_THRESHOLD_DAYS` (settings default 5). -/
def PENDING_OVERDUE_THRESHOLD_DAYS : Int := 5

/-- The parsed dates of one column, row-aligned (`pd.to_datetime` of a
column; `none` is `NaT`). -/
def parsedColumn (t : Table) (c : String) : List (Option Int) :=
  t.rows.map (fun r => (getCell t r c).bind parseDate)

/-- `SlaMetrics`.  The average is `round(mean, 2)` stored exactly, scaled
to hundredths of a day. -/
structure SlaMetrics where
  average_days_to_sign : Option Int
  max_days_to_sign : Option Int
  min_days_to_sign : Option Int
  pending_overdue_count : Option Int
  deriving Repr, DecidableEq

/-- Round the exact rational `n / d` (with `d > 0`) to the nearest
integer, ties to even (Python rounding). -/
def roundHalfEvenFrac (n d : Int) : Int :=
  let q := n.fdiv d
  let r := n.fmod d
  if 2 * r < d then q
  else if 2 * r > d then q + 1
  else if q % 2 = 0 then q else q + 1

/-- Sign latencies in whole days, keeping only rows where both dates
parse (`(signed - sent).dt.days.dropna()`). -/
def slaLatencies (t : Table) : List Int :=
  ((parsedColumn t SIGNATURE_COLUMN).zip (parsedColumn t SENT_TO_PHYSICIAN_COLUMN)).filterMap
    (fun p => match p with
      | (some sg, some st) => some (sg - st)
      | _ => none)

/-- Sent dates of pending rows: signed date missing, sent date present
(`signed_dates.isna() & sent_dates.notna()`). -/
def pendingSentDates (t : Table) : List Int :=
  ((parsedColumn t SIGNATURE_COLUMN).zip (parsedColumn t SENT_TO_PHYSICIAN_COLUMN)).filterMap
    (fun p => match p with
      | (none, some st) => some st
      | _ => none)

/-- `compute_sla_metrics` with the current time passed explicitly as a
day number (`datetime.utcnow()`). -/
def compute_sla_metrics (t : Table) (now : Int) : SlaMetrics :=
  if !(t.hasCol SIGNATURE_COLUMN) || !(t.hasCol SENT_TO_PHYSICIAN_COLUMN) then
    ⟨none, none, none, none⟩
  else
    let latency := slaLatencies t
    let pending := pendingSentDates t
    let pending_overdue_count : Int :=
      if pending.isEmpty then 0
      else ((pending.filter (fun st => now - st > PENDING_OVERDUE_THRESHOLD_DAYS)).length : Int)
    if latency.isEmpty then
      ⟨none, none, none, some pending_overdue_count⟩
    else
      ⟨some (roundHalfEvenFrac (100 * latency.sum) (latency.length : Int)),
       some (latency.foldl max (latency.headD 0)),
       some (latency.foldl min (latency.headD 0)),
       some pending_overdue_count⟩

/-- `DEFAULT_FAILURE_KEYWORDS`. -/
def DEFAULT_FAILURE_KEYWORDS : List String :=
  ["not valid", "failed", "error", "mandatory", "missing"]

/-- `DEFAULT_STATUS_COLUMNS`. -/
def DEFAULT_STATUS_COLUMNS : List String :=
  ["Remarks", "Sent To Physician Status", "WAV Document Upload Status",
   "Signed By Physician Status", "Uploaded Signed Order Status", "Order Upload Status"]

/-- An agency configuration (`AGENCY_CONFIG` entry / the default rule). -/
structure AgencyRule where
  failure_keywords : List String
  status_columns : List String
  deriving Repr, DecidableEq

/-- The default agency rule (`resolve_agency_config` fallback). -/
def defaultRule : AgencyRule :=
  ⟨DEFAULT_FAILURE_KEYWORDS, DEFAULT_STATUS_COLUMNS⟩

/-- First-seen-order deduplication (`Series.unique()` / ordered dict keys). -/
def dedupFirstAux (seen : List String) : List String → List String
  | [] => []
  | x :: xs =>
    if seen.contains x then dedupFirstAux seen xs
    else x :: dedupFirstAux (x :: seen) xs

/-- First-seen-order deduplication of a list of strings. -/
def dedupFirst (l : List String) : List String :=
  dedupFirstAux [] l

/-- `f"{x:.1f}%"` on the exact rational value `num / den` of a rate
(`den > 0`). -/
def fmtPercent (num den : Int) : String :=
  let n := roundHalfEvenFrac (10 * num) den
  (if n < 0 then "-" else "")
    ++ toString (n.natAbs / 10) ++ "." ++ toString (n.natAbs % 10) ++ "%"

/-- The failure mask `calculate_stats` obtains from `build_failure_mask`. -/
def statsMask (t : Table) (cfg : AgencyRule) : List Bool :=
  (build_failure_mask t cfg.failure_keywords cfg.status_columns).1

/-- The inspected status columns `calculate_stats` obtains from
`build_failure_mask`. -/
def statsInspected (t : Table) (cfg : AgencyRule) : List String :=
  (build_failure_mask t cfg.failure_keywords cfg.status_columns).2.1

/-- The compiled pattern `calculate_stats` obtains from
`build_failure_mask`. -/
def statsPattern (t : Table) (cfg : AgencyRule) : List String :=
  (build_failure_mask t cfg.failure_keywords cfg.status_columns).2.2

/-- The failing rows with their original positions (`df[failure_mask]`
iterated with `iterrows`, positions being the default `RangeIndex`). -/
def failingEnum (t : Table) (cfg : AgencyRule) : List (Nat × Row) :=
  (t.rows.enum.zip (statsMask t cfg)).filterMap
    (fun p => if p.2 then some p.1 else none)

/-- The trimmed `Remarks` value of a row, when the column exists and the
value is non-missing and non-empty after trimming (shared by both reason
passes, which apply exactly this filter). -/
def remarkValue (t : Table) (r : Row) : Option String :=
  if t.hasCol "Remarks" then
    match getCell t r "Remarks" with
    | some v => if trimStr v = "" then none else some (trimStr v)
    | none => none
  else none

/-- The trimmed value of a non-`Remarks` status column in a row, kept only
when non-missing, non-empty, and individually matching the failure
pattern (shared by both reason passes). -/
def matchedColValue (t : Table) (pat : List String) (c : String) (r : Row) : Option String :=
  match getCell t r c with
  | some v =>
    if trimStr v = "" then none
    else if patternMatches pat (trimStr v) then some (trimStr v) else none
  | none => none

/-- Frequency pass (`collected_series`): the `Remarks` values of failing
rows followed by, per inspected non-`Remarks` column, that column's
pattern-matching values of failing rows; concatenated column-major as
`pd.concat` does. -/
def pass1Combined (t : Table) (cfg : AgencyRule) : List String :=
  let fr := failingEnum t cfg
  let pat := statsPattern t cfg
  (fr.filterMap (fun p => remarkValue t p.2))
    ++ ((statsInspected t cfg).map (fun c =>
          if c == "Remarks" || !(t.hasCol c) then []
          else fr.filterMap (fun p => matchedColValue t pat c p.2))).flatten

/-- The display identifier of a failing row: first identifier column
present with a non-missing, non-empty trimmed value; otherwise the
spreadsheet-style `"Row {idx + 2}"` label. -/
def rowIdentifier (t : Table) (i : Nat) (r : Row) : String :=
  match IDENTIFIER_COLUMNS.findSome? (fun c =>
    if t.hasCol c then
      match getCell t r c with
      | some v => if trimStr v = "" then none else some (trimStr v)
      | none => none
    else none) with
  | some v => v
  | none => "Row " ++ toString (i + 2)

/-- Detail pass, per row: the reason values found in one failing row, in
column-visit order (`Remarks` first, then inspected non-`Remarks`
columns). -/
def rowReasonValues (t : Table) (inspected pat : List String) (r : Row) : List String :=
  (remarkValue t r).toList
    ++ inspected.filterMap (fun c =>
        if c == "Remarks" || !(t.hasCol c) then none
        else matchedColValue t pat c r)

/-- `failure_details[key].append(ident)` on an insertion-ordered mapping
(`defaultdict(list)`). -/
def appendDetail (d : List (String × List String)) (key ident : String) :
    List (String × List String) :=
  if d.any (fun p => p.1 = key) then
    d.map (fun p => if p.1 = key then (p.1, p.2 ++ [ident]) else p)
  else d ++ [(key, [ident])]

/-- Detail pass (`failure_details`): iterate failing rows in order; for
each reason value found in the row, append the row's identifier under
that value. -/
def failureDetailsMap (t : Table) (cfg : AgencyRule) : List (String × List String) :=
  (failingEnum t cfg).foldl
    (fun d p =>
      (rowReasonValues t (statsInspected t cfg) (statsPattern t cfg) p.2).foldl
        (fun d2 v => appendDetail d2 v (rowIdentifier t p.1 p.2)) d)
    []

/-- `FileStats`.  `failure_reason_counts` is the frequency mapping of the
frequency pass (keys in first-seen order); `failure_details` is `none`
when the returned record carries no such key (the zero-row branch). -/
structure FileStats where
  total_rows : Int
  success_rate : String
  failure_rate : String
  signed_count : Int
  unsigned_count : Int
  failure_count : Int
  success_count : Int
  unique_failure_reasons : List String
  failure_reason_counts : List (String × Nat)
  failure_details : Option (List (String × List String))
  inspected_status_columns : List String
  sla_metrics : SlaMetrics
  deriving Repr, DecidableEq

/-- `calculate_stats`, with `datetime.utcnow()` passed explicitly (in
days) for the SLA computation. -/
def calculate_stats (t : Table) (cfg : AgencyRule) (now : Int) : FileStats :=
  if t.rows.isEmpty then
    { total_rows := 0
      success_rate := "0.0%"
      failure_rate := "0.0%"
      signed_count := 0
      unsigned_count := 0
      failure_count := 0
      success_count := 0
      unique_failure_reasons := []
      failure_reason_counts := []
      failure_details := none
      inspected_status_columns := []
      sla_metrics := compute_sla_metrics t now }
  else
    let total : Int := (t.rows.length : Int)
    let failure_count : Int := ((statsMask t cfg).count true : Int)
    let success_count : Int := total - failure_count
    let signed_count : Int :=
      if t.hasCol SIGNATURE_COLUMN then
        ((parsedColumn t SIGNATURE_COLUMN).countP (fun d => d.isSome) : Int)
      else 0
    let unsigned_count : Int := total - signed_count
    let combined : List String := if failure_count = 0 then [] else pass1Combined t cfg
    { total_rows := total
      success_rate := fmtPercent (100 * success_count) total
      failure_rate := fmtPercent (100 * total - 100 * success_count) total
      signed_count := signed_count
      unsigned_count := unsigned_count
      failure_count := failure_count
      success_count := success_count
      unique_failure_reasons := dedupFirst combined
      failure_reason_counts := (dedupFirst combined).map (fun v => (v, combined.count v))
      failure_details := some (if failure_count = 0 then [] else failureDetailsMap t cfg)
      inspected_status_columns := statsInspected t cfg
      sla_metrics := compute_sla_metrics t now }

/-- Base name of a file name with its extension stripped
(`os.path.splitext(file_name)[0]`): cut at the last dot, unless only dots
precede it. -/
def splitextBase (name : String) : String :=
  let cs := name.toList
  match ((cs.enum.filter (fun p => p.2 == '.')).map (fun p => p.1)).getLast? with
  | none => name
  | some i =>
    if (cs.take i).any (fun ch => ch != '.') then String.mk (cs.take i) else name

/-- The ordered suffix-marker priority list of `derive_pair_key`. -/
def PAIR_MARKERS : List String :=
  ["_signedordertemplate", "_unsignedordertemplate", "_signedorder",
   "_unsignedorder", "_signed", "_unsigned", "_ordertemplate"]

/-- Strip trailing `'-'`, `'_'` and `' '` characters
(`str.rstrip("-_ ")`). -/
def rstripSeps (s : String) : String :=
  String.mk ((s.toList.reverse.dropWhile (fun c => c == '-' || c == '_' || c == ' ')).reverse)

/-- The marker loop of `derive_pair_key`: the first marker of the list
found in the lowered base name truncates the base name at the marker's
position; the truncation is stripped of trailing separators, falling back
to the untouched base name when that leaves nothing. -/
def derivePairKeyFrom (base : String) (lowered : List Char) : List String → String
  | [] => base
  | m :: rest =>
    match findSubstrIdx m.toList lowered with
    | some i =>
      let stripped := rstripSeps (String.mk (base.toList.take i))
      if stripped = "" then base else stripped
    | none => derivePairKeyFrom base lowered rest

/-- `derive_pair_key`. -/
def derive_pair_key (file_name : String) : String :=
  let base := splitextBase file_name
  derivePairKeyFrom base (lowerStr base).toList PAIR_MARKERS

/-- A per-file analysis record (`analyze_file` output), carrying the
fields the pairing and reconciliation engines consume. -/
structure FileAnalysis where
  agency : String
  file_name : String
  template_type : String
  pair_key : String
  stats : FileStats
  unique_failure_reasons : List String
  order_ids : Finset String
  deriving DecidableEq

/-- `_coerce_order_ids`: a missing side contributes the empty identifier
set (the identifiers are strings already). -/
def coerceOrderIds (e : Option FileAnalysis) : Finset String :=
  match e with
  | none => ∅
  | some a => a.order_ids

/-- `sorted(...)` of a set of identifier strings. -/
def sortedIds (s : Finset String) : List String :=
  sortMultiset s.val

/-- A combined pair summary (`summarize_pair_entries` output). -/
structure PairSummary where
  documents_signed : Int
  documents_unsigned : Int
  failure_rate_unsigned : Option String
  failure_rate_signed : Option String
  success_rate_unsigned : Option String
  success_rate_signed : Option String
  pending_signature_orders : List String
  signed_without_unsigned_source : List String
  dominant_failure_reasons : List String
  deriving Repr, DecidableEq

/-- `summarize_pair_entries`. -/
def summarize_pair_entries (signed unsigned : Option FileAnalysis) : PairSummary :=
  let signed_ids := coerceOrderIds signed
  let unsigned_ids := coerceOrderIds unsigned
  { documents_signed := (signed.map (fun e => e.stats.total_rows)).getD 0
    documents_unsigned := (unsigned.map (fun e => e.stats.total_rows)).getD 0
    failure_rate_unsigned := unsigned.map (fun e => e.stats.failure_rate)
    failure_rate_signed := signed.map (fun e => e.stats.failure_rate)
    success_rate_unsigned := unsigned.map (fun e => e.stats.success_rate)
    success_rate_signed := signed.map (fun e => e.stats.success_rate)
    pending_signature_orders := sortedIds (unsigned_ids \ signed_ids)
    signed_without_unsigned_source := sortedIds (signed_ids \ unsigned_ids)
    dominant_failure_reasons :=
      (dedupFirst ((unsigned.map (fun e => e.unique_failure_reasons)).getD []
        ++ (signed.map (fun e => e.unique_failure_reasons)).getD [])).take 5 }

/-- `PairResult`. -/
structure PairResult where
  pair_key : String
  agency : String
  signed : Option FileAnalysis
  unsigned : Option FileAnalysis
  combined_summary : PairSummary
  deriving DecidableEq

/-- The composite `(agency, pair_key)` bucket key of an analysis entry; a
falsy (empty) `pair_key` is re-derived from the file name. -/
def pairEntryKey (e : FileAnalysis) : String × String :=
  (e.agency, if e.pair_key = "" then derive_pair_key e.file_name else e.pair_key)

/-- Whether an entry lands in the `signed` bucket: a falsy template type
defaults to `"mixed"`, and anything other than exactly `"signed"` is
bucketed as unsigned. -/
def isSignedBucket (e : FileAnalysis) : Bool :=
  (if e.template_type = "" then "mixed" else e.template_type) == "signed"

/-- One step of the `pair_map` construction of `build_pair_results`: an
insertion-ordered mapping from composite key to (signed, unsigned)
bucket pair, later entries overwriting the bucket slot. -/
def insertPairEntry
    (m : List ((String × String) × (Option FileAnalysis × Option FileAnalysis)))
    (e : FileAnalysis) :
    List ((String × String) × (Option FileAnalysis × Option FileAnalysis)) :=
  let k := pairEntryKey e
  let upd := fun (p : Option FileAnalysis × Option FileAnalysis) =>
    if isSignedBucket e then (some e, p.2) else (p.1, some e)
  if m.any (fun q => q.1 = k) then
    m.map (fun q => if q.1 = k then (q.1, upd q.2) else q)
  else m ++ [(k, upd (none, none))]

/-- `build_pair_results`. -/
def build_pair_results (results : List FileAnalysis) : List PairResult :=
  let m := results.foldl insertPairEntry []
  m.filterMap (fun q =>
    if q.2.1.isNone && q.2.2.isNone then none
    else some
      { pair_key := q.1.2
        agency := q.1.1
        signed := q.2.1
        unsigned := q.2.2
        combined_summary := summarize_pair_entries q.2.1 q.2.2 })

/-- `ReconciliationEntry`. -/
structure ReconciliationEntry where
  agency : String
  unsigned_total : Nat
  signed_total : Nat
  pending_signature_orders : List String
  signed_without_unsigned_source : List String
  deriving Repr, DecidableEq

/-- Update the `grouped` mapping of `build_reconciliation_summary` at one
agency key (`defaultdict` semantics: an absent key starts from a pair of
empty sets). -/
def updateRecon (m : List (String × (Finset String × Finset String))) (k : String)
    (f : Finset String × Finset String → Finset String × Finset String) :
    List (String × (Finset String × Finset String)) :=
  if m.any (fun q => q.1 = k) then
    m.map (fun q => if q.1 = k then (q.1, f q.2) else q)
  else m ++ [(k, f (∅, ∅))]

/-- One step of the grouping loop of `build_reconciliation_summary`: a
`signed` entry unions its identifiers into the agency's signed set, an
`unsigned` entry into the unsigned set, anything else touches nothing. -/
def reconStep (m : List (String × (Finset String × Finset String))) (e : FileAnalysis) :
    List (String × (Finset String × Finset String)) :=
  if e.template_type = "signed" then
    updateRecon m e.agency (fun p => (p.1 ∪ e.order_ids, p.2))
  else if e.template_type = "unsigned" then
    updateRecon m e.agency (fun p => (p.1, p.2 ∪ e.order_ids))
  else m

/-- `build_reconciliation_summary`. -/
def build_reconciliation_summary (results : List FileAnalysis) : List ReconciliationEntry :=
  if results.isEmpty then []
  else
    let grouped := results.foldl reconStep []
    grouped.map (fun q =>
      { agency := q.1
        unsigned_total := q.2.2.card
        signed_total := q.2.1.card
        pending_signature_orders := sortedIds (q.2.2 \ q.2.1)
        signed_without_unsigned_source := sortedIds (q.2.1 \ q.2.2) })

/-- Lookup in the `failure_details` mapping (empty list when the reason
is absent). -/
def lookupDetail (d : List (String × List String)) (v : String) : List String :=
  ((d.find? (fun p => p.1 == v)).map (fun p => p.2)).getD []

/-- Lookup in the `failure_reason_counts` mapping (zero when the reason
is absent). -/
def lookupCount (c : List (String × Nat)) (v : String) : Nat :=
  ((c.find? (fun p => p.1 == v)).map (fun p => p.2)).getD 0

/-- Specification of the detail pass, written from the spec: for reason
`v`, walk the failing rows in row-iteration order and emit that row's
display identifier once per occurrence of `v` among the row's collected
reason values. -/
def detailIdentifiersSpec (t : Table) (cfg : AgencyRule) (v : String) : List String :=
  ((failingEnum t cfg).map (fun p =>
    List.replicate
      ((rowReasonValues t (statsInspected t cfg) (statsPattern t cfg) p.2).count v)
      (rowIdentifier t p.1 p.2))).flatten

/-- The union of the `order_ids` sets of all analyses of one agency and
one template type (spec-side definition for reconciliation). -/
def unionIdsOf (results : List FileAnalysis) (a tt : String) : Finset String :=
  ((results.filter (fun e => e.agency == a && e.template_type == tt)).map
    (fun e => e.order_ids)).foldr (fun s acc => s ∪ acc) ∅

/-! ### Witness fixtures -/

/-- A small table with two failing rows sharing one remark. -/
def tblRemarks : Table :=
  ⟨["OrderId", "Remarks"],
   [[some "A1", some "Upload failed: missing doc"],
    [some "A2", some "ok"],
    [some "A3", some "Upload failed: missing doc"]]⟩

/-- A table whose single row has both SLA dates parsable (no pending
row). -/
def tblSla : Table :=
  ⟨[SENT_TO_PHYSICIAN_COLUMN, SIGNATURE_COLUMN],
   [[some "2024-01-01", some "2024-01-05"]]⟩

/-- A row whose SLA date cells are both unparsable. -/
def rowBadDates : Row := [some "soon", some "later"]

/-- A table whose single row was sent but never signed (pending). -/
def tblPending : Table :=
  ⟨[SENT_TO_PHYSICIAN_COLUMN, SIGNATURE_COLUMN], [[some "2024-01-01", none]]⟩

/-- Placeholder statistics for pairing/reconciliation fixtures. -/
def exStats : FileStats :=
  ⟨0, "0.0%", "0.0%", 0, 0, 0, 0, [], [], none, [], ⟨none, none, none, none⟩⟩

/-- A signed analysis with order ids `{A, B}`. -/
def exSigned : FileAnalysis :=
  ⟨"X", "P_Signed.csv", "signed", "P", exStats, [], {"A", "B"}⟩

/-- An unsigned analysis with order ids `{B, C}` for the same pair key
and agency. -/
def exUnsigned : FileAnalysis :=
  ⟨"X", "P_Unsigned.csv", "unsigned", "P", exStats, [], {"B", "C"}⟩

/-- A placeholder pair result. -/
def dummyPair : PairResult :=
  ⟨"", "", none, none,
   ⟨0, 0, none, none, none, none, [], [], []⟩⟩

/-- The single pair built from the two example analyses. -/
def exPair : PairResult :=
  (build_pair_results [exSigned, exUnsigned]).getD 0 dummyPair

/-- Reconciliation fixture: first unsigned file, order ids `{1, 2}`. -/
def rexU1 : FileAnalysis :=
  ⟨"X", "X_Unsigned1.csv", "unsigned", "X", exStats, [], {"1", "2"}⟩

/-- Reconciliation fixture: second unsigned file, order ids `{2, 3}`. -/
def rexU2 : FileAnalysis :=
  ⟨"X", "X_Unsigned2.csv", "unsigned", "X", exStats, [], {"2", "3"}⟩

/-- Reconciliation fixture: one signed file, order ids `{2}`. -/
def rexS1 : FileAnalysis :=
  ⟨"X", "X_Signed.csv", "signed", "X", exStats, [], {"2"}⟩

/-- The expected reconciliation entry for the fixture batch. -/
def rexEntry : ReconciliationEntry :=
  ⟨"X", 3, 1, ["1", "3"], []⟩

/-! ### Helper lemmas -/

theorem derivePairKeyFrom_no_match (base : String) (lowered : List Char) :
    ∀ ms : List String, ms.all (fun m => !(findSubstrIdx m.toList lowered).isSome) →
    derivePairKeyFrom base lowered ms = base := by
  intro ms
  induction ms with
  | nil => intro _; rfl
  | cons m rest ih =>
    intro h
    simp only [List.all_cons, Bool.and_eq_true] at h
    unfold derivePairKeyFrom
    cases hfi : findSubstrIdx m.toList lowered with
    | none => exact ih h.2
    | some i => rw [hfi] at h; simp at h

theorem derivePairKeyFrom_match (base : String) (lowered : List Char) :
    ∀ ms : List String, ∀ m : String,
    ms.find? (fun mk => (findSubstrIdx mk.toList lowered).isSome) = some m →
    ∀ i : Nat, findSubstrIdx m.toList lowered = some i →
    derivePairKeyFrom base lowered ms =
      (if rstripSeps (String.mk (base.toList.take i)) = "" then base
       else rstripSeps (String.mk (base.toList.take i))) := by
  intro ms
  induction ms with
  | nil => intro m h; simp [List.find?] at h
  | cons m0 rest ih =>
    intro m h i hi
    rw [List.find?_cons] at h
    unfold derivePairKeyFrom
    cases hfi : findSubstrIdx m0.toList lowered with
    | none =>
      rw [hfi] at h; simp at h
      exact ih m h i hi
    | some j =>
      rw [hfi] at h; simp at h
      subst h
      rw [hfi] at hi
      cases hi
      rfl

/-! ### C8: pair-key derivation -/

/-- C8: for every file name, `derive_pair_key` truncates the
extension-stripped base name at the first marker of the ordered priority
list occurring in it (case-insensitively), strips trailing `-`, `_` and
space characters, falls back to the untouched base name when the stripped
result is empty, and keeps the full base name when no marker matches; in
particular `"Agency_SignedOrderTemplate.csv"` and `"Agency_Unsigned.xlsx"`
both map to `"Agency"`. -/
theorem derive_pair_key_spec :
    (∀ file_name : String,
      (PAIR_MARKERS.all
          (fun m => !(containsSub m (lowerStr (splitextBase file_name)))) = true →
        derive_pair_key file_name = splitextBase file_name) ∧
      (∀ m i,
        PAIR_MARKERS.find?
            (fun mk => containsSub mk (lowerStr (splitextBase file_name))) = some m →
        findSubstrIdx m.toList (lowerStr (splitextBase file_name)).toList = some i →
        derive_pair_key file_name =
          (if rstripSeps (String.mk ((splitextBase file_name).toList.take i)) = ""
           then splitextBase file_name
           else rstripSeps (String.mk ((splitextBase file_name).toList.take i))))) ∧
    derive_pair_key "Agency_SignedOrderTemplate.csv" = "Agency" ∧
    derive_pair_key "Agency_Unsigned.xlsx" = "Agency" := by
  refine ⟨fun file_name => ⟨fun h => ?_, fun m i hf hi => ?_⟩, by decide, by decide⟩
  · exact derivePairKeyFrom_no_match _ _ _ h
  · exact derivePairKeyFrom_match _ _ _ m hf i hi

/-! ### C10: keyword-order invariance of the failure mask -/

/-- C10: `build_failure_mask` returns the same mask, inspected-columns
list and pattern for any two keyword lists that are equal as sets,
because the pattern is compiled from the sorted, deduplicated keyword
tuple. -/
theorem build_failure_mask_keyword_set_invariant
    (t : Table) (ks1 ks2 statusColumns : List String)
    (h : ks1.toFinset = ks2.toFinset) :
    build_failure_mask t ks1 statusColumns = build_failure_mask t ks2 statusColumns := by
  have hp : compile_failure_pattern ks1 = compile_failure_pattern ks2 := by
    unfold compile_failure_pattern
    rw [h]
  unfold build_failure_mask
  rw [hp]

/-- Concrete instantiation of the C10 theorem: duplicated, reordered
keywords produce the identical mask triple. -/
theorem build_failure_mask_keyword_set_invariant_witness :
    ((["error", "failed", "error"] : List String).toFinset
        = (["failed", "error"] : List String).toFinset) ∧
    build_failure_mask ⟨["Remarks"], [[some "upload failed"], [some "ok"]]⟩
        ["error", "failed", "error"] DEFAULT_STATUS_COLUMNS
      = build_failure_mask ⟨["Remarks"], [[some "upload failed"], [some "ok"]]⟩
        ["failed", "error"] DEFAULT_STATUS_COLUMNS :=
  ⟨by decide,
   build_failure_mask_keyword_set_invariant _ _ _ _ (by decide)⟩

/-! ### C2: identifier extraction (corrected) -/

theorem extractIdentifiersFrom_eq_find (t : Table) :
    ∀ l : List String,
    extractIdentifiersFrom t l =
      (match l.find? (fun c => t.hasCol c) with
       | none => ∅
       | some c => (((columnCells t c).filterMap id).map trimStr).toFinset) := by
  intro l
  induction l with
  | nil => rfl
  | cons c rest ih =>
    rw [List.find?_cons]
    unfold extractIdentifiersFrom
    cases hc : t.hasCol c with
    | true => simp [hc]
    | false => simp [hc, ih]

/-- C2 counterexample: a present `OrderId` value consisting of whitespace
trims to the empty string and stays in the returned identifier set, so
empty values are not excluded. -/
theorem extract_order_identifiers_keeps_empty_value :
    "" ∈ extract_order_identifiers ⟨["OrderId"], [[some " "]]⟩ := by decide

/-- C2 (amended): `extract_order_identifiers` returns the value set of
the first candidate identifier column present in the schema (never a
union across candidates), with values coerced to string and trimmed and
with missing values excluded; a present value that trims to empty remains
in the set as the empty string.  In particular, when `"OrderId"` is
present only its values appear. -/
theorem extract_order_identifiers_first_column :
    (∀ t : Table,
      extract_order_identifiers t =
        (match IDENTIFIER_COLUMNS.find? (fun c => t.hasCol c) with
         | none => ∅
         | some c => (((columnCells t c).filterMap id).map trimStr).toFinset)) ∧
    (∀ t : Table, t.hasCol "OrderId" = true →
      extract_order_identifiers t =
        (((columnCells t "OrderId").filterMap id).map trimStr).toFinset) := by
  constructor
  · intro t
    exact extractIdentifiersFrom_eq_find t IDENTIFIER_COLUMNS
  · intro t h
    unfold extract_order_identifiers IDENTIFIER_COLUMNS extractIdentifiersFrom
    rw [h]
    simp

/-- Concrete instantiation of the amended C2 theorem: with both
`"OrderId"` and `"Order Number"` populated, only `"OrderId"` values
appear. -/
theorem extract_order_identifiers_first_column_witness :
    ((⟨["OrderId", "Order Number"], [[some "A", some "B"]]⟩ : Table).hasCol "OrderId" = true) ∧
    extract_order_identifiers ⟨["OrderId", "Order Number"], [[some "A", some "B"]]⟩
      = (((columnCells ⟨["OrderId", "Order Number"], [[some "A", some "B"]]⟩ "OrderId").filterMap
          id).map trimStr).toFinset :=
  ⟨by decide,
   extract_order_identifiers_first_column.2 _ (by decide)⟩

/-! ### C3: zero-row statistics (corrected) -/

/-- C3 counterexample: for a zero-row table the returned record carries
no `failure_details` mapping at all (modelled `none`), rather than an
empty mapping. -/
theorem calculate_stats_zero_rows_details_absent :
    (calculate_stats ⟨["OrderId"], []⟩ defaultRule 0).failure_details = none ∧
    (calculate_stats ⟨["OrderId"], []⟩ defaultRule 0).failure_details
      ≠ some ([] : List (String × List String)) := by decide

/-- C3 (amended): for every zero-row table the stats record has all
counts `0`, both rate strings `"0.0%"`, empty `unique_failure_reasons`
and `failure_reason_counts`, empty `inspected_status_columns`, the
`failure_details` key absent (`none`), and SLA metrics computed by the
same `compute_sla_metrics` rule applied to the table. -/
theorem calculate_stats_zero_rows (t : Table) (cfg : AgencyRule) (now : Int)
    (h : t.rows = []) :
    calculate_stats t cfg now =
      { total_rows := 0
        success_rate := "0.0%"
        failure_rate := "0.0%"
        signed_count := 0
        unsigned_count := 0
        failure_count := 0
        success_count := 0
        unique_failure_reasons := []
        failure_reason_counts := []
        failure_details := none
        inspected_status_columns := []
        sla_metrics := compute_sla_metrics t now } := by
  unfold calculate_stats
  rw [h]
  rfl

/-- Concrete instantiation of the amended C3 theorem on an empty table
that still declares both SLA date columns. -/
theorem calculate_stats_zero_rows_witness :
    ((⟨[SENT_TO_PHYSICIAN_COLUMN, SIGNATURE_COLUMN], []⟩ : Table).rows = []) ∧
    calculate_stats ⟨[SENT_TO_PHYSICIAN_COLUMN, SIGNATURE_COLUMN], []⟩ defaultRule 0 =
      { total_rows := 0
        success_rate := "0.0%"
        failure_rate := "0.0%"
        signed_count := 0
        unsigned_count := 0
        failure_count := 0
        success_count := 0
        unique_failure_reasons := []
        failure_reason_counts := []
        failure_details := none
        inspected_status_columns := []
        sla_metrics :=
          compute_sla_metrics ⟨[SENT_TO_PHYSICIAN_COLUMN, SIGNATURE_COLUMN], []⟩ 0 } :=
  ⟨rfl, calculate_stats_zero_rows _ defaultRule 0 rfl⟩

/-! ### C1: count invariants -/

theorem statsMask_length (t : Table) (cfg : AgencyRule) :
    (statsMask t cfg).length = t.rows.length := by
  unfold statsMask build_failure_mask
  by_cases h : t.rows.isEmpty
  · simp [h, List.isEmpty_iff.mp h]
  · simp [h]

/-- C1: for every non-empty table and agency configuration, the stats
record satisfies `success_count + failure_count = total_rows` and
`signed_count + unsigned_count = total_rows`, with all four counts
non-negative. -/
theorem calculate_stats_count_invariants (t : Table) (cfg : AgencyRule) (now : Int)
    (h : t.rows ≠ []) :
    (calculate_stats t cfg now).success_count + (calculate_stats t cfg now).failure_count
        = (calculate_stats t cfg now).total_rows ∧
    (calculate_stats t cfg now).signed_count + (calculate_stats t cfg now).unsigned_count
        = (calculate_stats t cfg now).total_rows ∧
    0 ≤ (calculate_stats t cfg now).success_count ∧
    0 ≤ (calculate_stats t cfg now).failure_count ∧
    0 ≤ (calculate_stats t cfg now).signed_count ∧
    0 ≤ (calculate_stats t cfg now).unsigned_count := by
  have hne : t.rows.isEmpty = false := by
    cases hr : t.rows with
    | nil => exact absurd hr h
    | cons a l => rfl
  have hmask : ((statsMask t cfg).count true : Int) ≤ (t.rows.length : Int) := by
    have := List.count_le_length true (statsMask t cfg)
    rw [statsMask_length t cfg] at this
    exact_mod_cast this
  have hsig : ((parsedColumn t SIGNATURE_COLUMN).countP (fun d => d.isSome) : Int)
      ≤ (t.rows.length : Int) := by
    have h1 := List.countP_le_length (fun d : Option Int => d.isSome)
      (l := parsedColumn t SIGNATURE_COLUMN)
    have h2 : (parsedColumn t SIGNATURE_COLUMN).length = t.rows.length := by
      unfold parsedColumn
      simp
    rw [h2] at h1
    exact_mod_cast h1
  unfold calculate_stats
  simp only [hne, Bool.false_eq_true, if_false]
  by_cases hc : t.hasCol SIGNATURE_COLUMN
  · simp only [hc, if_true]
    refine ⟨by ring, by ring, ?_, ?_, ?_, ?_⟩ <;> omega
  · simp only [hc, if_false]
    refine ⟨by ring, by ring, ?_, ?_, ?_, ?_⟩ <;> omega

/-- Concrete instantiation of the C1 theorem. -/
theorem calculate_stats_count_invariants_witness :
    (tblRemarks.rows ≠ []) ∧
    ((calculate_stats tblRemarks defaultRule 0).success_count
        + (calculate_stats tblRemarks defaultRule 0).failure_count
        = (calculate_stats tblRemarks defaultRule 0).total_rows ∧
     (calculate_stats tblRemarks defaultRule 0).signed_count
        + (calculate_stats tblRemarks defaultRule 0).unsigned_count
        = (calculate_stats tblRemarks defaultRule 0).total_rows ∧
     0 ≤ (calculate_stats tblRemarks defaultRule 0).success_count ∧
     0 ≤ (calculate_stats tblRemarks defaultRule 0).failure_count ∧
     0 ≤ (calculate_stats tblRemarks defaultRule 0).signed_count ∧
     0 ≤ (calculate_stats tblRemarks defaultRule 0).unsigned_count) :=
  ⟨by decide, calculate_stats_count_invariants tblRemarks defaultRule 0 (by decide)⟩

/-! ### C4: SLA null-handling -/

theorem parsedColumn_append (t : Table) (r : Row) (c : String) :
    parsedColumn ⟨t.cols, t.rows ++ [r]⟩ c
      = parsedColumn t c ++ [(getCell t r c).bind parseDate] := by
  unfold parsedColumn
  simp only [List.map_append]
  rfl

theorem parsedColumn_length (t : Table) (c : String) :
    (parsedColumn t c).length = t.rows.length := by
  unfold parsedColumn
  simp

theorem slaPairs_append_unparsable (t : Table) (r : Row)
    (hsent : (getCell t r SENT_TO_PHYSICIAN_COLUMN).bind parseDate = none)
    (hsig : (getCell t r SIGNATURE_COLUMN).bind parseDate = none) :
    slaLatencies ⟨t.cols, t.rows ++ [r]⟩ = slaLatencies t ∧
    pendingSentDates ⟨t.cols, t.rows ++ [r]⟩ = pendingSentDates t := by
  have hz :
      (parsedColumn ⟨t.cols, t.rows ++ [r]⟩ SIGNATURE_COLUMN).zip
        (parsedColumn ⟨t.cols, t.rows ++ [r]⟩ SENT_TO_PHYSICIAN_COLUMN)
      = (parsedColumn t SIGNATURE_COLUMN).zip (parsedColumn t SENT_TO_PHYSICIAN_COLUMN)
        ++ [((none : Option Int), (none : Option Int))] := by
    rw [parsedColumn_append, parsedColumn_append, hsent, hsig,
      List.zip_append (by rw [parsedColumn_length, parsedColumn_length])]
    rfl
  constructor
  · unfold slaLatencies
    rw [hz, List.filterMap_append]
    simp
  · unfold pendingSentDates
    rw [hz, List.filterMap_append]
    simp

/-- C4: `compute_sla_metrics` returns all four fields null exactly when
one of the two date columns is absent; with both columns present the
pending-overdue count is always reported, is `some 0` when no row is
pending-eligible, and appending a row with unparsable dates never raises
and leaves the metrics unchanged. -/
theorem compute_sla_metrics_null_policy (t : Table) (now : Int) :
    (((compute_sla_metrics t now).average_days_to_sign = none ∧
      (compute_sla_metrics t now).max_days_to_sign = none ∧
      (compute_sla_metrics t now).min_days_to_sign = none ∧
      (compute_sla_metrics t now).pending_overdue_count = none) ↔
        (t.hasCol SIGNATURE_COLUMN = false ∨ t.hasCol SENT_TO_PHYSICIAN_COLUMN = false)) ∧
    (t.hasCol SIGNATURE_COLUMN = true → t.hasCol SENT_TO_PHYSICIAN_COLUMN = true →
      ((compute_sla_metrics t now).pending_overdue_count).isSome = true) ∧
    (t.hasCol SIGNATURE_COLUMN = true → t.hasCol SENT_TO_PHYSICIAN_COLUMN = true →
      pendingSentDates t = [] →
      (compute_sla_metrics t now).pending_overdue_count = some 0) ∧
    (∀ r : Row,
      (getCell t r SENT_TO_PHYSICIAN_COLUMN).bind parseDate = none →
      (getCell t r SIGNATURE_COLUMN).bind parseDate = none →
      compute_sla_metrics ⟨t.cols, t.rows ++ [r]⟩ now = compute_sla_metrics t now) := by
  refine ⟨?_, ?_, ?_, ?_⟩
  · unfold compute_sla_metrics
    by_cases h1 : t.hasCol SIGNATURE_COLUMN
    · by_cases h2 : t.hasCol SENT_TO_PHYSICIAN_COLUMN
      · simp only [h1, h2]
        by_cases hl : (slaLatencies t).isEmpty <;> simp [hl]
      · simp [h1, h2]
    · simp [h1]
  · intro h1 h2
    unfold compute_sla_metrics
    simp only [h1, h2]
    by_cases hl : (slaLatencies t).isEmpty <;> simp [hl]
  · intro h1 h2 hp
    unfold compute_sla_metrics
    simp only [h1, h2, hp]
    by_cases hl : (slaLatencies t).isEmpty <;> simp [hl]
  · intro r hsent hsig
    have hpair := slaPairs_append_unparsable t r hsent hsig
    unfold compute_sla_metrics
    rw [hpair.1, hpair.2]
    rfl

/-- Concrete instantiation of the C4 theorem: a table with both columns,
one parsable latency row and no pending row reports `some 0` overdue, and
appending an unparsable-dates row changes nothing. -/
theorem compute_sla_metrics_null_policy_witness :
    (tblSla.hasCol SIGNATURE_COLUMN = true) ∧
    (tblSla.hasCol SENT_TO_PHYSICIAN_COLUMN = true) ∧
    (pendingSentDates tblSla = []) ∧
    (compute_sla_metrics tblSla 0).pending_overdue_count = some 0 ∧
    ((getCell tblSla rowBadDates SENT_TO_PHYSICIAN_COLUMN).bind parseDate = none) ∧
    ((getCell tblSla rowBadDates SIGNATURE_COLUMN).bind parseDate = none) ∧
    compute_sla_metrics ⟨tblSla.cols, tblSla.rows ++ [rowBadDates]⟩ 0
      = compute_sla_metrics tblSla 0 :=
  ⟨by decide, by decide, by decide,
   (compute_sla_metrics_null_policy tblSla 0).2.2.1 (by decide) (by decide) (by decide),
   by decide, by decide,
   (compute_sla_metrics_null_policy tblSla 0).2.2.2 rowBadDates (by decide) (by decide)⟩

/-! ### C9: determinism across invocations (corrected) -/

/-- C9 counterexample: the stats computation consults the current time
(`datetime.utcnow()`): over the same unmodified table and configuration,
an invocation 3 days after the sent date and one 10 days after it return
different records (the pending row crosses the overdue threshold), so two
invocations are not byte-identical. -/
theorem calculate_stats_not_invocation_invariant :
    calculate_stats tblPending defaultRule (dayNumber 2024 1 4)
      ≠ calculate_stats tblPending defaultRule (dayNumber 2024 1 11) := by decide

theorem compute_sla_metrics_time_invariant (t : Table) (t1 t2 : Int)
    (h : pendingSentDates t = []) :
    compute_sla_metrics t t1 = compute_sla_metrics t t2 := by
  unfold compute_sla_metrics
  rw [h]
  rfl

/-- C9 (amended): `calculate_stats` is a deterministic function of the
table, the agency configuration and the observed current time; two
invocations agree whenever no row is pending-eligible (sent date parses,
signed date missing), the current time being consulted only through the
pending-overdue count. -/
theorem calculate_stats_time_invariant_without_pending
    (t : Table) (cfg : AgencyRule) (t1 t2 : Int)
    (h : pendingSentDates t = []) :
    calculate_stats t cfg t1 = calculate_stats t cfg t2 := by
  unfold calculate_stats
  rw [compute_sla_metrics_time_invariant t t1 t2 h]

/-- Concrete instantiation of the amended C9 theorem. -/
theorem calculate_stats_time_invariant_without_pending_witness :
    (pendingSentDates tblRemarks = []) ∧
    calculate_stats tblRemarks defaultRule 0 = calculate_stats tblRemarks defaultRule 999 :=
  ⟨by decide,
   calculate_stats_time_invariant_without_pending tblRemarks defaultRule 0 999 (by decide)⟩

/-! ### C6: pair summaries -/

/-- C6: every pair produced by `build_pair_results` carries a combined
summary with `pending_signature_orders` the sorted difference of the
unsigned side's identifiers minus the signed side's, and
`signed_without_unsigned_source` the sorted opposite difference, a
missing side contributing the empty set. -/
theorem build_pair_results_summary_sets (results : List FileAnalysis) (p : PairResult)
    (hp : p ∈ build_pair_results results) :
    p.combined_summary.pending_signature_orders
        = sortedIds (coerceOrderIds p.unsigned \ coerceOrderIds p.signed) ∧
    p.combined_summary.signed_without_unsigned_source
        = sortedIds (coerceOrderIds p.signed \ coerceOrderIds p.unsigned) := by
  unfold build_pair_results at hp
  rcases List.mem_filterMap.mp hp with ⟨q, _, hq⟩
  by_cases hc : q.2.1.isNone && q.2.2.isNone
  · rw [if_pos hc] at hq
    cases hq
  · rw [if_neg hc] at hq
    cases hq
    exact ⟨rfl, rfl⟩

/-- Concrete instantiation of the C6 theorem: a signed analysis with ids
`{A, B}` and an unsigned analysis with ids `{B, C}` on the same composite
key pair to `pending = [C]` and `orphaned = [A]`. -/
theorem build_pair_results_summary_sets_witness :
    (exPair ∈ build_pair_results [exSigned, exUnsigned]) ∧
    exPair.combined_summary.pending_signature_orders = ["C"] ∧
    exPair.combined_summary.signed_without_unsigned_source = ["A"] := by
  refine ⟨by decide, ?_, ?_⟩
  · rw [(build_pair_results_summary_sets [exSigned, exUnsigned] exPair (by decide)).1]
    decide
  · rw [(build_pair_results_summary_sets [exSigned, exUnsigned] exPair (by decide)).2]
    decide

/-! ### C7: reconciliation -/

theorem foldrUnion_append (l1 l2 : List (Finset String)) :
    (l1 ++ l2).foldr (fun s acc => s ∪ acc) ∅
      = (l1.foldr (fun s acc => s ∪ acc) ∅) ∪ (l2.foldr (fun s acc => s ∪ acc) ∅) := by
  induction l1 with
  | nil => simp
  | cons s l ih => simp [ih, Finset.union_assoc]

theorem unionIdsOf_append (l : List FileAnalysis) (e : FileAnalysis) (a tt : String) :
    unionIdsOf (l ++ [e]) a tt
      = unionIdsOf l a tt
        ∪ (if e.agency = a ∧ e.template_type = tt then e.order_ids else ∅) := by
  unfold unionIdsOf
  rw [List.filter_append, List.map_append, foldrUnion_append]
  by_cases h1 : e.agency = a
  · by_cases h2 : e.template_type = tt
    · simp [h1, h2]
    · simp [h1, h2]
  · simp [h1]

theorem unionIdsOf_filter_empty (processed : List FileAnalysis) (a tt : String)
    (h : ∀ e ∈ processed, ¬(e.agency = a ∧ e.template_type = tt)) :
    unionIdsOf processed a tt = ∅ := by
  unfold unionIdsOf
  rw [List.filter_eq_nil_iff.mpr ?_]
  · rfl
  · intro e he
    simp only [Bool.and_eq_true, beq_iff_eq, not_and]
    intro h1 h2
    exact h e he ⟨h1, h2⟩

theorem updateRecon_general
    (m : List (String × (Finset String × Finset String)))
    (processed : List FileAnalysis) (e : FileAnalysis) (dS dU : Finset String)
    (hS : dS = if e.template_type = "signed" then e.order_ids else ∅)
    (hU : dU = if e.template_type = "unsigned" then e.order_ids else ∅)
    (hts : e.template_type = "signed" ∨ e.template_type = "unsigned")
    (hval : ∀ q ∈ m, q.2.1 = unionIdsOf processed q.1 "signed"
        ∧ q.2.2 = unionIdsOf processed q.1 "unsigned")
    (hnd : (m.map Prod.fst).Nodup)
    (hkeys : ∀ a : String, (∃ q ∈ m, q.1 = a) ↔
        ∃ e2 ∈ processed, e2.agency = a
          ∧ (e2.template_type = "signed" ∨ e2.template_type = "unsigned")) :
    (∀ q ∈ updateRecon m e.agency (fun p => (p.1 ∪ dS, p.2 ∪ dU)),
        q.2.1 = unionIdsOf (processed ++ [e]) q.1 "signed"
          ∧ q.2.2 = unionIdsOf (processed ++ [e]) q.1 "unsigned") ∧
    (((updateRecon m e.agency (fun p => (p.1 ∪ dS, p.2 ∪ dU))).map Prod.fst).Nodup) ∧
    (∀ a : String,
        (∃ q ∈ updateRecon m e.agency (fun p => (p.1 ∪ dS, p.2 ∪ dU)), q.1 = a) ↔
        ∃ e2 ∈ processed ++ [e], e2.agency = a
          ∧ (e2.template_type = "signed" ∨ e2.template_type = "unsigned")) := by
  have hunS : ∀ a, unionIdsOf (processed ++ [e]) a "signed"
      = unionIdsOf processed a "signed" ∪ (if e.agency = a then dS else ∅) := by
    intro a
    rw [unionIdsOf_append]
    congr 1
    by_cases ha : e.agency = a
    · by_cases ht : e.template_type = "signed" <;> simp [ha, ht, hS]
    · simp [ha]
  have hunU : ∀ a, unionIdsOf (processed ++ [e]) a "unsigned"
      = unionIdsOf processed a "unsigned" ∪ (if e.agency = a then dU else ∅) := by
    intro a
    rw [unionIdsOf_append]
    congr 1
    by_cases ha : e.agency = a
    · by_cases ht : e.template_type = "unsigned" <;> simp [ha, ht, hU]
    · simp [ha]
  have hsplit : ∀ (a : String),
      (∃ e2 ∈ processed ++ [e], e2.agency = a
          ∧ (e2.template_type = "signed" ∨ e2.template_type = "unsigned"))
      ↔ ((∃ e2 ∈ processed, e2.agency = a
          ∧ (e2.template_type = "signed" ∨ e2.template_type = "unsigned"))
          ∨ e.agency = a) := by
    intro a
    constructor
    · rintro ⟨e2, he2, hrest⟩
      rcases List.mem_append.mp he2 with h | h
      · exact Or.inl ⟨e2, h, hrest⟩
      · rcases List.mem_singleton.mp h with rfl
        exact Or.inr hrest.1
    · rintro (⟨e2, he2, hrest⟩ | hrest)
      · exact ⟨e2, List.mem_append_left _ he2, hrest⟩
      · exact ⟨e, List.mem_append_right _ (List.mem_singleton_self e), hrest, hts⟩
  unfold updateRecon
  by_cases hpres : m.any (fun q => q.1 = e.agency)
  · rw [if_pos hpres]
    refine ⟨?_, ?_, ?_⟩
    · intro q' hq'
      rcases List.mem_map.mp hq' with ⟨q, hq, rfl⟩
      by_cases hqa : q.1 = e.agency
      · rw [if_pos hqa]
        constructor
        · show q.2.1 ∪ dS = unionIdsOf (processed ++ [e]) q.1 "signed"
          rw [hunS, if_pos hqa.symm, (hval q hq).1]
        · show q.2.2 ∪ dU = unionIdsOf (processed ++ [e]) q.1 "unsigned"
          rw [hunU, if_pos hqa.symm, (hval q hq).2]
      · rw [if_neg hqa]
        constructor
        · rw [hunS, if_neg (fun hh => hqa hh.symm), Finset.union_empty]
          exact (hval q hq).1
        · rw [hunU, if_neg (fun hh => hqa hh.symm), Finset.union_empty]
          exact (hval q hq).2
    · have hfst : (m.map (fun q =>
          if q.1 = e.agency then (q.1, (fun p => (p.1 ∪ dS, p.2 ∪ dU)) q.2) else q)).map
            Prod.fst = m.map Prod.fst := by
        rw [List.map_map]
        apply List.map_congr_left
        intro q _
        by_cases hqa : q.1 = e.agency
        · simp [Function.comp, hqa]
        · simp [Function.comp, hqa]
      rw [hfst]
      exact hnd
    · intro a
      rw [hsplit a]
      have hlhs : (∃ q' ∈ m.map (fun q =>
          if q.1 = e.agency then (q.1, (fun p => (p.1 ∪ dS, p.2 ∪ dU)) q.2) else q),
            q'.1 = a) ↔ (∃ q ∈ m, q.1 = a) := by
        simp only [List.mem_map]
        constructor
        · rintro ⟨q', ⟨q, hq, rfl⟩, h⟩
          refine ⟨q, hq, ?_⟩
          by_cases hqa : q.1 = e.agency
          · rw [if_pos hqa] at h
            exact h
          · rw [if_neg hqa] at h
            exact h
        · rintro ⟨q, hq, h⟩
          refine ⟨_, ⟨q, hq, rfl⟩, ?_⟩
          by_cases hqa : q.1 = e.agency
          · rw [if_pos hqa]
            exact h
          · rw [if_neg hqa]
            exact h
      rw [hlhs, hkeys a]
      refine ⟨fun h => Or.inl h, fun h => ?_⟩
      rcases h with h | h
      · exact h
      · obtain ⟨q, hq, hqa⟩ := List.any_eq_true.mp hpres
        have hm := (hkeys e.agency).mp ⟨q, hq, of_decide_eq_true hqa⟩
        exact h ▸ hm
  · rw [if_neg hpres]
    have hnot : ∀ q ∈ m, ¬ q.1 = e.agency := fun q hq hqa =>
      hpres (List.any_eq_true.mpr ⟨q, hq, decide_eq_true hqa⟩)
    have hnoneS : unionIdsOf processed e.agency "signed" = ∅ := by
      apply unionIdsOf_filter_empty
      intro e2 he2 hc
      obtain ⟨q, hq, hqa⟩ := (hkeys e.agency).mpr ⟨e2, he2, hc.1, Or.inl hc.2⟩
      exact hnot q hq hqa
    have hnoneU : unionIdsOf processed e.agency "unsigned" = ∅ := by
      apply unionIdsOf_filter_empty
      intro e2 he2 hc
      obtain ⟨q, hq, hqa⟩ := (hkeys e.agency).mpr ⟨e2, he2, hc.1, Or.inr hc.2⟩
      exact hnot q hq hqa
    refine ⟨?_, ?_, ?_⟩
    · intro q' hq'
      rcases List.mem_append.mp hq' with hq | hq
      · constructor
        · rw [hunS, if_neg (fun hh => hnot q' hq hh.symm), Finset.union_empty]
          exact (hval q' hq).1
        · rw [hunU, if_neg (fun hh => hnot q' hq hh.symm), Finset.union_empty]
          exact (hval q' hq).2
      · rcases List.mem_singleton.mp hq with rfl
        constructor
        · show (∅ : Finset String) ∪ dS = unionIdsOf (processed ++ [e]) e.agency "signed"
          rw [hunS, if_pos rfl, hnoneS]
        · show (∅ : Finset String) ∪ dU = unionIdsOf (processed ++ [e]) e.agency "unsigned"
          rw [hunU, if_pos rfl, hnoneU]
    · rw [List.map_append, List.nodup_append]
      refine ⟨hnd, by simp, ?_⟩
      intro a ha hb
      simp only [List.map_cons, List.map_nil, List.mem_singleton] at hb
      rcases List.mem_map.mp ha with ⟨q, hq, rfl⟩
      exact hnot q hq hb
    · intro a
      rw [hsplit a]
      constructor
      · rintro ⟨q', hq', h⟩
        rcases List.mem_append.mp hq' with hq | hq
        · exact Or.inl ((hkeys a).mp ⟨q', hq, h⟩)
        · rcases List.mem_singleton.mp hq with rfl
          exact Or.inr h
      · rintro (h | h)
        · obtain ⟨q, hq, hqa⟩ := (hkeys a).mpr h
          exact ⟨q, List.mem_append_left _ hq, hqa⟩
        · exact ⟨_, List.mem_append_right _ (List.mem_singleton_self _), h⟩

theorem reconStep_spec (m : List (String × (Finset String × Finset String)))
    (processed : List FileAnalysis) (e : FileAnalysis)
    (hval : ∀ q ∈ m, q.2.1 = unionIdsOf processed q.1 "signed"
        ∧ q.2.2 = unionIdsOf processed q.1 "unsigned")
    (hnd : (m.map Prod.fst).Nodup)
    (hkeys : ∀ a : String, (∃ q ∈ m, q.1 = a) ↔
        ∃ e2 ∈ processed, e2.agency = a
          ∧ (e2.template_type = "signed" ∨ e2.template_type = "unsigned")) :
    (∀ q ∈ reconStep m e, q.2.1 = unionIdsOf (processed ++ [e]) q.1 "signed"
        ∧ q.2.2 = unionIdsOf (processed ++ [e]) q.1 "unsigned") ∧
    (((reconStep m e).map Prod.fst).Nodup) ∧
    (∀ a : String, (∃ q ∈ reconStep m e, q.1 = a) ↔
        ∃ e2 ∈ processed ++ [e], e2.agency = a
          ∧ (e2.template_type = "signed" ∨ e2.template_type = "unsigned")) := by
  by_cases hs : e.template_type = "signed"
  · have hstep : reconStep m e
        = updateRecon m e.agency (fun p => (p.1 ∪ e.order_ids, p.2 ∪ ∅)) := by
      unfold reconStep
      rw [if_pos hs]
      congr 1
      funext p
      rw [Finset.union_empty]
    rw [hstep]
    exact updateRecon_general m processed e e.order_ids ∅
      (by rw [if_pos hs]) (by rw [if_neg (by rw [hs]; simp)]) (Or.inl hs) hval hnd hkeys
  · by_cases hu : e.template_type = "unsigned"
    · have hstep : reconStep m e
          = updateRecon m e.agency (fun p => (p.1 ∪ ∅, p.2 ∪ e.order_ids)) := by
        unfold reconStep
        rw [if_neg hs, if_pos hu]
        congr 1
        funext p
        rw [Finset.union_empty]
      rw [hstep]
      exact updateRecon_general m processed e ∅ e.order_ids
        (by rw [if_neg hs]) (by rw [if_pos hu]) (Or.inr hu) hval hnd hkeys
    · have hstep : reconStep m e = m := by
        unfold reconStep
        rw [if_neg hs, if_neg hu]
      rw [hstep]
      refine ⟨?_, hnd, ?_⟩
      · intro q hq
        rw [unionIdsOf_append, unionIdsOf_append,
          if_neg (fun hc => hs hc.2), if_neg (fun hc => hu hc.2),
          Finset.union_empty, Finset.union_empty]
        exact hval q hq
      · intro a
        constructor
        · intro h
          obtain ⟨e2, he2, hrest⟩ := (hkeys a).mp h
          exact ⟨e2, List.mem_append_left _ he2, hrest⟩
        · rintro ⟨e2, he2, hrest⟩
          rcases List.mem_append.mp he2 with h2 | h2
          · exact (hkeys a).mpr ⟨e2, h2, hrest⟩
          · rcases List.mem_singleton.mp h2 with rfl
            rcases hrest.2 with h3 | h3
            · exact absurd h3 hs
            · exact absurd h3 hu

theorem reconFold_spec (l : List FileAnalysis) :
    ∀ (m : List (String × (Finset String × Finset String)))
      (processed : List FileAnalysis),
    (∀ q ∈ m, q.2.1 = unionIdsOf processed q.1 "signed"
        ∧ q.2.2 = unionIdsOf processed q.1 "unsigned") →
    ((m.map Prod.fst).Nodup) →
    (∀ a : String, (∃ q ∈ m, q.1 = a) ↔
        ∃ e2 ∈ processed, e2.agency = a
          ∧ (e2.template_type = "signed" ∨ e2.template_type = "unsigned")) →
    (∀ q ∈ l.foldl reconStep m,
        q.2.1 = unionIdsOf (processed ++ l) q.1 "signed"
          ∧ q.2.2 = unionIdsOf (processed ++ l) q.1 "unsigned") ∧
    (((l.foldl reconStep m).map Prod.fst).Nodup) ∧
    (∀ a : String, (∃ q ∈ l.foldl reconStep m, q.1 = a) ↔
        ∃ e2 ∈ processed ++ l, e2.agency = a
          ∧ (e2.template_type = "signed" ∨ e2.template_type = "unsigned")) := by
  induction l with
  | nil =>
    intro m processed hval hnd hkeys
    rw [List.append_nil]
    exact ⟨hval, hnd, hkeys⟩
  | cons e rest ih =>
    intro m processed hval hnd hkeys
    have hstep := reconStep_spec m processed e hval hnd hkeys
    have hrec := ih (reconStep m e) (processed ++ [e]) hstep.1 hstep.2.1 hstep.2.2
    rw [List.append_assoc] at hrec
    exact hrec

/-- C7: `build_reconciliation_summary` yields exactly one entry per
distinct agency having at least one analysis typed exactly `"signed"` or
`"unsigned"` (mixed and unknown types contribute to neither side); per
agency, the signed and unsigned identifier sets are the unions of
`order_ids` over all files of that side, and the reported lists are the
sorted set differences; an empty input batch yields the empty list. -/
theorem build_reconciliation_summary_spec (results : List FileAnalysis) :
    (results = [] → build_reconciliation_summary results = []) ∧
    ((build_reconciliation_summary results).map (fun e => e.agency)).Nodup ∧
    (∀ a : String, (∃ e ∈ build_reconciliation_summary results, e.agency = a) ↔
        (∃ fa ∈ results, fa.agency = a
          ∧ (fa.template_type = "signed" ∨ fa.template_type = "unsigned"))) ∧
    (∀ e ∈ build_reconciliation_summary results,
      e.unsigned_total = (unionIdsOf results e.agency "unsigned").card ∧
      e.signed_total = (unionIdsOf results e.agency "signed").card ∧
      e.pending_signature_orders
        = sortedIds (unionIdsOf results e.agency "unsigned"
            \ unionIdsOf results e.agency "signed") ∧
      e.signed_without_unsigned_source
        = sortedIds (unionIdsOf results e.agency "signed"
            \ unionIdsOf results e.agency "unsigned")) := by
  by_cases hres : results.isEmpty
  · have hnil : results = [] := List.isEmpty_iff.mp hres
    subst hnil
    refine ⟨fun _ => rfl, by simp [build_reconciliation_summary], ?_, ?_⟩
    · intro a
      constructor
      · rintro ⟨e, he, _⟩
        simp [build_reconciliation_summary] at he
      · rintro ⟨fa, hfa, _⟩
        simp at hfa
    · intro e he
      simp [build_reconciliation_summary] at he
  · have hinv := reconFold_spec results [] []
      (by intro q hq; simp at hq)
      (by simp)
      (by
        intro a
        constructor
        · rintro ⟨q, hq, _⟩
          simp at hq
        · rintro ⟨e2, he2, _⟩
          simp at he2)
    rw [List.nil_append] at hinv
    have hb : build_reconciliation_summary results
        = (results.foldl reconStep []).map (fun q =>
            { agency := q.1
              unsigned_total := q.2.2.card
              signed_total := q.2.1.card
              pending_signature_orders := sortedIds (q.2.2 \ q.2.1)
              signed_without_unsigned_source := sortedIds (q.2.1 \ q.2.2) }) := by
      unfold build_reconciliation_summary
      rw [if_neg (by simpa using hres)]
    refine ⟨fun h => by simp [h] at hres, ?_, ?_, ?_⟩
    · rw [hb, List.map_map]
      have : ((fun e : ReconciliationEntry => e.agency) ∘ (fun q :
          String × (Finset String × Finset String) =>
            ({ agency := q.1
               unsigned_total := q.2.2.card
               signed_total := q.2.1.card
               pending_signature_orders := sortedIds (q.2.2 \ q.2.1)
               signed_without_unsigned_source := sortedIds (q.2.1 \ q.2.2) } :
              ReconciliationEntry))) = Prod.fst := by
        funext q
        rfl
      rw [this]
      exact hinv.2.1
    · intro a
      rw [hb]
      constructor
      · rintro ⟨e, he, hea⟩
        rcases List.mem_map.mp he with ⟨q, hq, rfl⟩
        exact (hinv.2.2 a).mp ⟨q, hq, hea⟩
      · intro h
        obtain ⟨q, hq, hqa⟩ := (hinv.2.2 a).mpr h
        exact ⟨_, List.mem_map_of_mem _ hq, hqa⟩
    · intro e he
      rw [hb] at he
      rcases List.mem_map.mp he with ⟨q, hq, rfl⟩
      have hq2 := hinv.1 q hq
      refine ⟨?_, ?_, ?_, ?_⟩
      · show q.2.2.card = _
        rw [hq2.2]
      · show q.2.1.card = _
        rw [hq2.1]
      · show sortedIds (q.2.2 \ q.2.1) = _
        rw [hq2.1, hq2.2]
      · show sortedIds (q.2.1 \ q.2.2) = _
        rw [hq2.1, hq2.2]

/-- Concrete instantiation of the C7 theorem: two unsigned files with ids
`{1, 2}` and `{2, 3}` plus one signed file with `{2}` for one agency give
one entry with `unsigned_total = 3`, `signed_total = 1` and pending
orders `[1, 3]`. -/
theorem build_reconciliation_summary_spec_witness :
    (rexEntry ∈ build_reconciliation_summary [rexU1, rexU2, rexS1]) ∧
    rexEntry.unsigned_total = (unionIdsOf [rexU1, rexU2, rexS1] "X" "unsigned").card ∧
    rexEntry.unsigned_total = 3 ∧
    rexEntry.signed_total = 1 ∧
    rexEntry.pending_signature_orders = ["1", "3"] := by
  refine ⟨by decide, ?_, by decide, by decide, by decide⟩
  exact ((build_reconciliation_summary_spec [rexU1, rexU2, rexS1]).2.2.2
    rexEntry (by decide)).1

/-! ### C5: agreement of the two reason-collection passes -/

theorem filterMap_const_none {α β : Type} :
    ∀ l : List α, l.filterMap (fun _ => (none : Option β)) = [] := by
  intro l
  induction l with
  | nil => rfl
  | cons x xs ih =>
    rw [List.filterMap_cons_none, ih]
    rfl

theorem count_filterMap {α : Type} (f : α → Option String) (v : String) :
    ∀ l : List α,
    (l.filterMap f).count v = (l.map (fun x => ((f x).toList).count v)).sum := by
  intro l
  induction l with
  | nil => rfl
  | cons x xs ih =>
    cases hf : f x with
    | none =>
      rw [List.filterMap_cons_none hf, List.map_cons, List.sum_cons, ih, hf]
      simp
    | some w =>
      rw [List.filterMap_cons_some hf, List.map_cons, List.sum_cons, hf, List.count_cons, ih]
      show _ + _ = (List.count v [w]) + _
      rw [show ([w] : List String) = w :: [] from rfl, List.count_cons, List.count_nil]
      omega

theorem sum_map_add {α : Type} (f g : α → Nat) :
    ∀ l : List α, (l.map (fun x => f x + g x)).sum = (l.map f).sum + (l.map g).sum := by
  intro l
  induction l with
  | nil => rfl
  | cons x xs ih =>
    simp only [List.map_cons, List.sum_cons, ih]
    omega

theorem sum_map_zero {α : Type} :
    ∀ l : List α, (l.map (fun _ => (0 : Nat))).sum = 0 := by
  intro l
  induction l with
  | nil => rfl
  | cons x xs ih => simp only [List.map_cons, List.sum_cons, ih]

theorem sum_exchange {α β : Type} (g : α → β → Nat) :
    ∀ (l1 : List α) (l2 : List β),
    (l1.map (fun a => (l2.map (g a)).sum)).sum
      = (l2.map (fun b => (l1.map (fun a => g a b)).sum)).sum := by
  intro l1
  induction l1 with
  | nil =>
    intro l2
    rw [List.map_nil, List.sum_nil, ← sum_map_zero l2]
    rfl
  | cons a l1 ih =>
    intro l2
    rw [List.map_cons, List.sum_cons, ih l2, ← sum_map_add]
    rfl

theorem count_cols_exchange (fr : List (Nat × Row)) (cols : List String)
    (g : String → (Nat × Row) → Option String) (v : String) :
    ((cols.map (fun c => fr.filterMap (fun p => g c p))).flatten).count v
      = (fr.map (fun p => (cols.filterMap (fun c => g c p)).count v)).sum := by
  rw [List.count_flatten, List.map_map]
  have h1 : (cols.map (List.count v ∘ fun c => fr.filterMap (fun p => g c p)))
      = cols.map (fun c => (fr.map (fun p => ((g c p).toList).count v)).sum) := by
    apply List.map_congr_left
    intro c _
    exact count_filterMap (fun p => g c p) v fr
  rw [h1, sum_exchange (fun c p => ((g c p).toList).count v) cols fr]
  apply congrArg List.sum
  apply List.map_congr_left
  intro p _
  exact (count_filterMap (fun c => g c p) v cols).symm

theorem pass1_count_eq_sum (t : Table) (cfg : AgencyRule) (v : String) :
    (pass1Combined t cfg).count v
      = ((failingEnum t cfg).map (fun p =>
          (rowReasonValues t (statsInspected t cfg) (statsPattern t cfg) p.2).count v)).sum := by
  unfold pass1Combined
  rw [List.count_append]
  have hguard : ((statsInspected t cfg).map (fun c =>
      if c == "Remarks" || !(t.hasCol c) then []
      else (failingEnum t cfg).filterMap
        (fun p => matchedColValue t (statsPattern t cfg) c p.2)))
      = (statsInspected t cfg).map (fun c =>
          (failingEnum t cfg).filterMap (fun p =>
            if c == "Remarks" || !(t.hasCol c) then none
            else matchedColValue t (statsPattern t cfg) c p.2)) := by
    apply List.map_congr_left
    intro c _
    cases hb : (c == "Remarks" || !(t.hasCol c))
    · simp only [Bool.false_eq_true, if_false]
    · simp only [if_true, filterMap_const_none]
  rw [hguard,
    count_cols_exchange (failingEnum t cfg) (statsInspected t cfg)
      (fun c p => if c == "Remarks" || !(t.hasCol c) then none
        else matchedColValue t (statsPattern t cfg) c p.2) v,
    count_filterMap (fun p : Nat × Row => remarkValue t p.2) v (failingEnum t cfg),
    ← sum_map_add]
  apply congrArg List.sum
  apply List.map_congr_left
  intro p _
  unfold rowReasonValues
  rw [List.count_append]

theorem detailSpec_length (t : Table) (cfg : AgencyRule) (v : String) :
    (detailIdentifiersSpec t cfg v).length
      = ((failingEnum t cfg).map (fun p =>
          (rowReasonValues t (statsInspected t cfg) (statsPattern t cfg) p.2).count v)).sum := by
  unfold detailIdentifiersSpec
  rw [List.length_flatten, List.map_map]
  apply congrArg List.sum
  apply List.map_congr_left
  intro p _
  simp

theorem find?_append_single {α : Type} (p : α → Bool) (x : α) :
    ∀ l : List α, (l ++ [x]).find? p
      = (match l.find? p with
         | some y => some y
         | none => if p x then some x else none) := by
  intro l
  induction l with
  | nil =>
    show [x].find? p = _
    rw [List.find?]
    cases hp : p x <;> simp [hp]
  | cons y ys ih =>
    show ((y :: (ys ++ [x])).find? p) = _
    rw [List.find?, List.find?]
    cases hp : p y
    · simp only [ih]
    · rfl

theorem lookupDetail_append (d : List (String × List String)) (k ident v : String) :
    lookupDetail (appendDetail d k ident) v
      = lookupDetail d v ++ (if v = k then [ident] else []) := by
  unfold appendDetail lookupDetail
  have hcomp : ((fun p : String × List String => p.1 == v)
      ∘ (fun p : String × List String => if p.1 = k then (p.1, p.2 ++ [ident]) else p))
      = fun p : String × List String => p.1 == v := by
    funext p
    by_cases hpk : p.1 = k
    · simp [hpk]
    · simp [hpk]
  by_cases hpres : d.any (fun p => p.1 = k)
  · rw [if_pos hpres, List.find?_map, hcomp]
    cases hf : d.find? (fun p => p.1 == v) with
    | none =>
      by_cases hvk : v = k
      · exfalso
        obtain ⟨q, hq, hqk⟩ := List.any_eq_true.mp hpres
        have : ¬ (q.1 == v) = true := List.find?_eq_none.mp hf q hq
        apply this
        rw [beq_iff_eq, of_decide_eq_true hqk, hvk]
      · rw [if_neg hvk]
        rfl
    | some q =>
      have hqv : q.1 = v := by
        have := List.find?_some hf
        simpa using this
      by_cases hvk : v = k
      · rw [if_pos hvk]
        have hqk : q.1 = k := hqv.trans hvk
        show ((some (if q.1 = k then (q.1, q.2 ++ [ident]) else q)).map (fun p => p.2)).getD []
          = ((some q).map (fun p => p.2)).getD [] ++ [ident]
        rw [if_pos hqk]
        rfl
      · rw [if_neg hvk]
        have hqk : ¬ q.1 = k := fun hh => hvk (hqv.symm.trans hh)
        show ((some (if q.1 = k then (q.1, q.2 ++ [ident]) else q)).map (fun p => p.2)).getD []
          = ((some q).map (fun p => p.2)).getD [] ++ []
        rw [if_neg hqk, List.append_nil]
  · rw [if_neg hpres, find?_append_single]
    have hknot : ∀ q ∈ d, ¬ q.1 = k := fun q hq hqk =>
      hpres (List.any_eq_true.mpr ⟨q, hq, decide_eq_true hqk⟩)
    cases hf : d.find? (fun p => p.1 == v) with
    | none =>
      by_cases hvk : v = k
      · rw [if_pos hvk]
        show ((if ((k, [ident]).1 == v) = true then some (k, [ident]) else none).map
            (fun p => p.2)).getD []
          = ((none : Option (String × List String)).map (fun p => p.2)).getD [] ++ [ident]
        rw [if_pos (by simp [hvk])]
        rfl
      · rw [if_neg hvk]
        show ((if ((k, [ident]).1 == v) = true then some (k, [ident]) else none).map
            (fun p => p.2)).getD []
          = ((none : Option (String × List String)).map (fun p => p.2)).getD [] ++ []
        rw [if_neg (by simpa using fun hh => hvk hh.symm)]
        rfl
    | some q =>
      have hqv : q.1 = v := by
        have := List.find?_some hf
        simpa using this
      have hvk : ¬ v = k := by
        intro hvk
        exact hknot q (List.mem_of_find?_eq_some hf) (hqv.trans hvk)
      rw [if_neg hvk]
      show ((some q).map (fun p => p.2)).getD [] = ((some q).map (fun p => p.2)).getD [] ++ []
      rw [List.append_nil]

theorem lookupDetail_foldRow (ident v : String) :
    ∀ (vals : List String) (d : List (String × List String)),
    lookupDetail (vals.foldl (fun d2 w => appendDetail d2 w ident) d) v
      = lookupDetail d v ++ List.replicate (vals.count v) ident := by
  intro vals
  induction vals with
  | nil =>
    intro d
    rw [List.count_nil, List.replicate_zero, List.append_nil]
    rfl
  | cons w ws ih =>
    intro d
    show lookupDetail (ws.foldl _ (appendDetail d w ident)) v = _
    rw [ih (appendDetail d w ident), lookupDetail_append, List.count_cons, List.append_assoc]
    by_cases hvw : v = w
    · rw [if_pos hvw, if_pos (by rw [hvw]; exact beq_self_eq_true w)]
      rw [show List.replicate (ws.count v + 1) ident
        = ident :: List.replicate (ws.count v) ident from List.replicate_succ ident (ws.count v)]
      rfl
    · rw [if_neg hvw, if_neg (by simpa using fun h => hvw h.symm), Nat.add_zero]
      rfl

theorem lookupDetail_foldRows (t : Table) (cfg : AgencyRule) (v : String) :
    ∀ (fr : List (Nat × Row)) (d : List (String × List String)),
    lookupDetail (fr.foldl (fun d2 p =>
        (rowReasonValues t (statsInspected t cfg) (statsPattern t cfg) p.2).foldl
          (fun d3 w => appendDetail d3 w (rowIdentifier t p.1 p.2)) d2) d) v
      = lookupDetail d v
        ++ (fr.map (fun p => List.replicate
              ((rowReasonValues t (statsInspected t cfg) (statsPattern t cfg) p.2).count v)
              (rowIdentifier t p.1 p.2))).flatten := by
  intro fr
  induction fr with
  | nil =>
    intro d
    rw [List.map_nil, List.flatten_nil, List.append_nil]
    rfl
  | cons p ps ih =>
    intro d
    show lookupDetail (ps.foldl _ _) v = _
    rw [ih, lookupDetail_foldRow, List.map_cons, List.flatten_cons, List.append_assoc]

theorem dedupFirstAux_mem (x : String) :
    ∀ (l seen : List String), x ∈ dedupFirstAux seen l ↔ (x ∈ l ∧ x ∉ seen) := by
  intro l
  induction l with
  | nil =>
    intro seen
    simp [dedupFirstAux]
  | cons y ys ih =>
    intro seen
    unfold dedupFirstAux
    by_cases hy : seen.contains y = true
    · rw [if_pos hy, ih seen]
      have hymem : y ∈ seen := List.elem_iff.mp hy
      constructor
      · rintro ⟨h1, h2⟩
        exact ⟨List.mem_cons_of_mem _ h1, h2⟩
      · rintro ⟨h1, h2⟩
        rcases List.mem_cons.mp h1 with rfl | h1
        · exact absurd hymem h2
        · exact ⟨h1, h2⟩
    · rw [if_neg hy]
      have hymem : ¬ y ∈ seen := fun hm => hy (List.elem_iff.mpr hm)
      constructor
      · intro hx
        rcases List.mem_cons.mp hx with rfl | hx
        · exact ⟨List.mem_cons_self _ _, hymem⟩
        · obtain ⟨h1, h2⟩ := (ih (y :: seen)).mp hx
          exact ⟨List.mem_cons_of_mem _ h1,
            fun hc => h2 (List.mem_cons_of_mem _ hc)⟩
      · rintro ⟨h1, h2⟩
        rcases List.mem_cons.mp h1 with rfl | h1
        · exact List.mem_cons_self _ _
        · by_cases hxy : x = y
          · subst hxy
            exact List.mem_cons_self _ _
          · exact List.mem_cons_of_mem _ ((ih (y :: seen)).mpr ⟨h1, fun hc => by
              rcases List.mem_cons.mp hc with h3 | h3
              · exact hxy h3
              · exact h2 h3⟩)

theorem lookupCount_eq_count (l : List String) (v : String) :
    lookupCount ((dedupFirst l).map (fun w => (w, l.count w))) v = l.count v := by
  unfold lookupCount
  rw [List.find?_map]
  have hcomp : ((fun p : String × Nat => p.1 == v) ∘ fun w => (w, l.count w))
      = fun w => w == v := rfl
  rw [hcomp]
  by_cases hv : v ∈ l
  · have hvd : v ∈ dedupFirst l := by
      unfold dedupFirst
      exact (dedupFirstAux_mem v l []).mpr ⟨hv, by simp⟩
    have hsome : ((dedupFirst l).find? (fun w => w == v)).isSome := by
      rw [List.find?_isSome]
      exact ⟨v, hvd, by simp⟩
    obtain ⟨w, hw⟩ := Option.isSome_iff_exists.mp hsome
    have hwv : w = v := by
      have := List.find?_some hw
      simpa using this
    subst hwv
    rw [hw]
    rfl
  · have hnone : (dedupFirst l).find? (fun w => w == v) = none := by
      rw [List.find?_eq_none]
      intro x hx hbeq
      have hxv : x = v := by simpa using hbeq
      subst hxv
      exact hv ((dedupFirstAux_mem x l []).mp hx).1
    rw [hnone, List.count_eq_zero.mpr hv]
    rfl

theorem matchedColValue_matches (t : Table) (pat : List String) (c : String) (r : Row)
    (w : String) (h : matchedColValue t pat c r = some w) :
    patternMatches pat w = true := by
  unfold matchedColValue at h
  cases hc : getCell t r c with
  | none => rw [hc] at h; cases h
  | some s =>
    rw [hc] at h
    have h2 : (if trimStr s = "" then none
        else if patternMatches pat (trimStr s) = true
          then some (trimStr s) else none) = some w := h
    by_cases h1 : trimStr s = ""
    · rw [if_pos h1] at h2
      cases h2
    · rw [if_neg h1] at h2
      by_cases h3 : patternMatches pat (trimStr s) = true
      · rw [if_pos h3] at h2
        cases h2
        exact h3
      · rw [if_neg h3] at h2
        cases h2

/-- C5: in every table with failing rows, the two reason-collection
passes agree: for every reason string `v`, the count recorded by the
frequency pass equals the number of identifiers the detail pass attaches
to `v`; the detail pass lists, in row-iteration order, one identifier per
per-row occurrence of `v`; and a `v` that neither matches the failure
pattern nor occurs as a failing row's trimmed remark appears in neither
mapping. -/
theorem calculate_stats_reason_passes_agree (t : Table) (cfg : AgencyRule) (now : Int)
    (v : String) (h : (calculate_stats t cfg now).failure_count ≠ 0) :
    lookupCount (calculate_stats t cfg now).failure_reason_counts v
      = (lookupDetail ((calculate_stats t cfg now).failure_details.getD []) v).length ∧
    lookupDetail ((calculate_stats t cfg now).failure_details.getD []) v
      = detailIdentifiersSpec t cfg v ∧
    (patternMatches (statsPattern t cfg) v = false →
      (∀ p ∈ failingEnum t cfg, ¬ remarkValue t p.2 = some v) →
      lookupCount (calculate_stats t cfg now).failure_reason_counts v = 0 ∧
      lookupDetail ((calculate_stats t cfg now).failure_details.getD []) v = []) := by
  by_cases hr : t.rows.isEmpty
  · exfalso
    apply h
    simp [calculate_stats, hr]
  have hfc : ¬ ((statsMask t cfg).count true : Int) = 0 := by
    intro hc
    apply h
    simp [calculate_stats, hr, hc]
  have hcounts : (calculate_stats t cfg now).failure_reason_counts
      = (dedupFirst (pass1Combined t cfg)).map
          (fun w => (w, (pass1Combined t cfg).count w)) := by
    simp [calculate_stats, hr, hfc]
  have hdetails : (calculate_stats t cfg now).failure_details
      = some (failureDetailsMap t cfg) := by
    simp [calculate_stats, hr, hfc]
  rw [hcounts, hdetails, Option.getD_some, lookupCount_eq_count]
  have hdet : lookupDetail (failureDetailsMap t cfg) v = detailIdentifiersSpec t cfg v := by
    unfold failureDetailsMap detailIdentifiersSpec
    rw [lookupDetail_foldRows]
    show lookupDetail [] v ++ _ = _
    rw [show lookupDetail [] v = [] from rfl, List.nil_append]
  have hzero : patternMatches (statsPattern t cfg) v = false →
      (∀ p ∈ failingEnum t cfg, ¬ remarkValue t p.2 = some v) →
      ∀ p ∈ failingEnum t cfg,
        (rowReasonValues t (statsInspected t cfg) (statsPattern t cfg) p.2).count v = 0 := by
    intro hnm hnr p hp
    rw [List.count_eq_zero]
    intro hmem
    unfold rowReasonValues at hmem
    rcases List.mem_append.mp hmem with hm | hm
    · cases hrem : remarkValue t p.2 with
      | none => rw [hrem] at hm; cases hm
      | some w =>
        rw [hrem] at hm
        rcases List.mem_singleton.mp hm with rfl
        exact hnr p hp hrem
    · obtain ⟨c, _, hc⟩ := List.mem_filterMap.mp hm
      by_cases hg : (c == "Remarks" || !(t.hasCol c)) = true
      · rw [if_pos hg] at hc
        cases hc
      · rw [if_neg hg] at hc
        rw [matchedColValue_matches t (statsPattern t cfg) c p.2 v hc] at hnm
        cases hnm
  refine ⟨?_, hdet, ?_⟩
  · rw [hdet, pass1_count_eq_sum, detailSpec_length]
  · intro hnm hnr
    have hsum : ((failingEnum t cfg).map (fun p =>
        (rowReasonValues t (statsInspected t cfg) (statsPattern t cfg) p.2).count v)).sum
        = 0 := by
      apply List.sum_eq_zero
      intro x hx
      obtain ⟨p, hp, rfl⟩ := List.mem_map.mp hx
      exact hzero hnm hnr p hp
    constructor
    · rw [pass1_count_eq_sum]
      exact hsum
    · rw [hdet]
      apply List.eq_nil_of_length_eq_zero
      rw [detailSpec_length]
      exact hsum

/-- Concrete instantiation of the C5 theorem: a remark string matching in
2 of 3 rows appears with count 2 and is mapped to exactly those two rows'
identifiers in row order. -/
theorem calculate_stats_reason_passes_agree_witness :
    ((calculate_stats tblRemarks defaultRule 0).failure_count ≠ 0) ∧
    lookupCount (calculate_stats tblRemarks defaultRule 0).failure_reason_counts
        "Upload failed: missing doc" = 2 ∧
    lookupDetail ((calculate_stats tblRemarks defaultRule 0).failure_details.getD [])
        "Upload failed: missing doc" = ["A1", "A3"] ∧
    lookupCount (calculate_stats tblRemarks defaultRule 0).failure_reason_counts
        "Upload failed: missing doc"
      = (lookupDetail ((calculate_stats tblRemarks defaultRule 0).failure_details.getD [])
          "Upload failed: missing doc").length := by
  refine ⟨by decide, by decide, by decide, ?_⟩
  exact (calculate_stats_reason_passes_agree tblRemarks defaultRule 0
    "Upload failed: missing doc" (by decide)).1

end AuditBot
